import Mathlib

/-!
Shallow embedding of the multi-threaded web server embedded in this
repository (the `mp-web-server` project and its simpler predecessor in
`docs/rust/base/26-构建多线程web服务器.md`): request parsing
(`src/request.rs`), routing (`src/router.rs`), handlers
(`src/handler.rs`), response serialization (`src/response.rs`), the
connection job (`src/server.rs`) and the thread pool teardown
(`src/thread_pool.rs`).  Rust strings are Lean `String`s; `HashMap` is
an association list with replace-on-insert; fallible operations
(`unwrap` panics, out-of-bounds indexing) are `Option`-valued, with
`none` modelling a panic.
-/

/-- Rust `str::split(sep)` on a single-char separator, at the level of
character lists: splits at every occurrence, keeping empty pieces
(`"".split` is `[""]`, `"/".split` is `["", ""]`). -/
def splitChar (sep : Char) : List Char → List (List Char)
  | [] => [[]]
  | c :: cs =>
    let r := splitChar sep cs
    if c = sep then [] :: r
    else (c :: r.headD []) :: r.tail

/-- Rust `str::split(sep)` for a one-character separator. -/
def rustSplit (sep : Char) (s : String) : List String :=
  (splitChar sep s.data).map (fun l => ⟨l⟩)

/-- Split at every character satisfying `p`, keeping empty pieces. -/
def splitCharP (p : Char → Bool) : List Char → List (List Char)
  | [] => [[]]
  | c :: cs =>
    let r := splitCharP p cs
    if p c then [] :: r
    else (c :: r.headD []) :: r.tail

/-- Rust `str::split_whitespace`: split on whitespace, dropping empty
pieces. -/
def rustSplitWhitespace (s : String) : List String :=
  ((splitCharP Char.isWhitespace s.data).filter (fun l => l ≠ [])).map (fun l => ⟨l⟩)

/-- `listStartsWith pat l` is true iff `pat` is an initial run of `l`. -/
def listStartsWith : List Char → List Char → Bool
  | [], _ => true
  | _ :: _, [] => false
  | p :: ps, c :: cs => p = c && listStartsWith ps cs

/-- Rust `str::contains(pat)`: `pat` occurs as a contiguous substring. -/
def containsSub (pat : List Char) : List Char → Bool
  | [] => listStartsWith pat []
  | c :: cs => listStartsWith pat (c :: cs) || containsSub pat cs

/-- Rust `str::ends_with(pat)`. -/
def rustEndsWith (s pat : String) : Bool :=
  listStartsWith pat.data.reverse s.data.reverse

/-- Strip leading and trailing whitespace from a character list. -/
def trimChars (l : List Char) : List Char :=
  ((l.dropWhile Char.isWhitespace).reverse.dropWhile Char.isWhitespace).reverse

/-- Rust `str::trim`. -/
def rustTrim (s : String) : String :=
  ⟨trimChars s.data⟩

/-- Remove one trailing carriage return, as Rust `str::lines` does for
lines terminated by `\r\n`. -/
def stripCR (l : List Char) : List Char :=
  if l.getLast? = some '\r' then l.dropLast else l

/-- Rust `String::lines()`: split at `\n`, strip the `\r` of a `\r\n`
terminator, and do not produce a final empty line for a trailing
newline.  A last line with no newline keeps any trailing `\r`. -/
def rustLines (s : String) : List String :=
  let pieces := splitChar '\n' s.data
  let processed := pieces.dropLast.map stripCR
  let kept :=
    match pieces.getLast? with
    | some [] => processed
    | some l => processed ++ [l]
    | none => processed
  kept.map (fun l => ⟨l⟩)

/-- Drop characters up to and including the first occurrence of `c`. -/
def dropThrough (c : Char) : List Char → List Char
  | [] => []
  | x :: xs => if x = c then xs else dropThrough c xs

/-- Take characters strictly before the first occurrence of `c`. -/
def takeUntil (c : Char) : List Char → List Char
  | [] => []
  | x :: xs => if x = c then [] else x :: takeUntil c xs

/-- Remove `pat` from the front of `l`, or fail. -/
def dropPat : List Char → List Char → Option (List Char)
  | [], l => some l
  | _ :: _, [] => none
  | p :: ps, c :: cs => if p = c then dropPat ps cs else none

/-- The decimal digit character for `n < 10`. -/
def digitChar (n : Nat) : Char :=
  if n = 0 then '0' else if n = 1 then '1' else if n = 2 then '2'
  else if n = 3 then '3' else if n = 4 then '4' else if n = 5 then '5'
  else if n = 6 then '6' else if n = 7 then '7' else if n = 8 then '8'
  else '9'

/-- Numeric value of a decimal digit character. -/
def digitVal (c : Char) : Nat :=
  c.toNat - 48

/-- Fuel-driven helper for `natDigitsRev`; the fuel only bounds the
recursion depth and never runs out when it exceeds `n`. -/
def natDigitsRevAux : Nat → Nat → List Char
  | 0, _ => []
  | f + 1, n =>
    if n < 10 then [digitChar n]
    else digitChar (n % 10) :: natDigitsRevAux f (n / 10)

/-- Little-endian decimal digits of `n`. -/
def natDigitsRev (n : Nat) : List Char :=
  natDigitsRevAux (n + 1) n

/-- Big-endian decimal digits of `n`. -/
def digitsList (n : Nat) : List Char :=
  (natDigitsRev n).reverse

/-- Decimal rendering of a natural number, as Rust `format!("{}", n)`
produces. -/
def natDecimal (n : Nat) : String :=
  ⟨digitsList n⟩

/-- Consume a maximal run of decimal digits, accumulating their value. -/
def parseDigitsAux (acc : Nat) : List Char → Nat × List Char
  | [] => (acc, [])
  | c :: cs =>
    if c.isDigit then parseDigitsAux (acc * 10 + digitVal c) cs
    else (acc, c :: cs)

/-- Independent wire-level check: extract the numeric value of the
`Content-Length` header from a serialized response, reading the second
line of the wire string. -/
def contentLengthVal (wire : String) : Option Nat :=
  let line2 := takeUntil '\n' (dropThrough '\n' wire.data)
  match dropPat ("Content-Length:").data line2 with
  | some rest => some (parseDigitsAux 0 rest).1
  | none => none

/-! ## Request data model (`src/request.rs`) -/

/-- `enum Method` from `src/request.rs`. -/
inductive Method where
  | Get
  | Post
  | Put
  | Patch
  | Delete
  | Uninitialized
deriving DecidableEq

/-- `impl From<&str> for Method`. -/
def Method.fromStr (s : String) : Method :=
  if s = "GET" then .Get
  else if s = "POST" then .Post
  else if s = "PUT" then .Put
  else if s = "PATCH" then .Patch
  else if s = "DELETE" then .Delete
  else .Uninitialized

/-- `enum ProtocolVersion` from `src/request.rs`. -/
inductive ProtocolVersion where
  | HTTP1_1
  | HTTP2
  | Uninitialized
deriving DecidableEq

/-- `impl From<&str> for ProtocolVersion`. -/
def ProtocolVersion.fromStr (s : String) : ProtocolVersion :=
  if s = "HTTP/1.1" then .HTTP1_1
  else if s = "HTTP/2" then .HTTP2
  else .Uninitialized

/-- `HashMap::insert` on an association-list model: a later insert of
an existing key replaces the earlier value. -/
def hashInsert (m : List (String × String)) (k v : String) : List (String × String) :=
  (m.filter (fun p => p.1 ≠ k)) ++ [(k, v)]

/-- `HashMap::get` on the association-list model. -/
def lookupHeader (m : List (String × String)) (k : String) : Option String :=
  (m.find? (fun p => p.1 = k)).map (fun p => p.2)

/-- `struct Request` from `src/request.rs`; `resource` is the payload
of `Resource::Path`. -/
structure Request where
  method : Method
  protocol_version : ProtocolVersion
  resource : String
  headers : List (String × String)
  body : String
deriving DecidableEq

/-- `process_req_line` from `src/request.rs`: tokenize the request line
on whitespace and take the first three tokens.  The Rust code calls
`.unwrap()` on each `next()`; with fewer than three tokens this panics,
modelled by `none`. -/
def process_req_line (line : String) : Option (Method × String × ProtocolVersion) :=
  match rustSplitWhitespace line with
  | m :: r :: v :: _ => some (Method.fromStr m, r, ProtocolVersion.fromStr v)
  | _ => none

/-- `process_header` from `src/request.rs`: split on `':'` and trim the
first two pieces; a missing piece stays the empty string. -/
def process_header (line : String) : String × String :=
  let pieces := rustSplit ':' line
  (rustTrim (pieces.headD ""), rustTrim ((pieces.get? 1).getD ""))

/-- The line-classification loop of `impl From<String> for Request`:
a line containing `"HTTP"` is the request line, otherwise a line
containing `':'` is a header, an empty line is skipped, and any other
line becomes the body (last one wins). -/
def requestLinesLoop :
    List String → Method × ProtocolVersion × String × List (String × String) × String →
    Option (Method × ProtocolVersion × String × List (String × String) × String)
  | [], st => some st
  | line :: rest, (m, v, r, hs, b) =>
    if containsSub ("HTTP").data line.data then
      match process_req_line line with
      | none => none
      | some (m', r', v') => requestLinesLoop rest (m', v', r', hs, b)
    else if containsSub (":").data line.data then
      let kv := process_header line
      requestLinesLoop rest (m, v, r, hashInsert hs kv.1 kv.2, b)
    else if line = "" then
      requestLinesLoop rest (m, v, r, hs, b)
    else
      requestLinesLoop rest (m, v, r, hs, line)

/-- `impl From<String> for Request`: fields start as
`Uninitialized` / empty and are filled by scanning the lines; `none`
models a panic inside `process_req_line`. -/
def Request.fromString (req_str : String) : Option Request :=
  (requestLinesLoop (rustLines req_str)
      (.Uninitialized, .Uninitialized, "", [], "")).map
    (fun st => ⟨st.1, st.2.1, st.2.2.1, st.2.2.2.1, st.2.2.2.2⟩)

/-! ## Response (`src/response.rs`) -/

/-- `struct Response` from `src/response.rs`. -/
structure Response where
  protocol_version : String
  status_code : String
  status_text : String
  headers : Option (List (String × String))
  body : Option String
deriving DecidableEq

/-- `impl Default for Response`. -/
def Response.mkDefault : Response :=
  ⟨"HTTP/1.1", "200", "OK", none, none⟩

/-- `Response::new` from `src/response.rs`: override the status code
when it is not `"200"`, look the status text up in the table
(`200→OK, 400→Bad Request, 500→Internal Server Error`, default
`Not Found`), and default the headers to `Content-Type: text/plain`
when none are supplied. -/
def Response.new (status_code : String) (headers : Option (List (String × String)))
    (body : Option String) : Response :=
  let code := if status_code ≠ "200" then status_code else Response.mkDefault.status_code
  let text :=
    if code = "200" then "OK"
    else if code = "400" then "Bad Request"
    else if code = "500" then "Internal Server Error"
    else "Not Found"
  let hs :=
    match headers with
    | some h => some h
    | none => some [("Content-Type", "text/plain")]
  ⟨Response.mkDefault.protocol_version, code, text, hs, body⟩

/-- `Response::body()`: the body string, or `""` for `None`. -/
def Response.bodyStr (r : Response) : String :=
  match r.body with
  | some s => s
  | none => ""

/-- `impl From<Response> for String`: the wire format
`"{version} {code} {text}\r\nContent-Length:{len}\r\n\r\n{body}"`,
where `len` is `body().len()`, the UTF-8 byte length.  No other header
is written. -/
def responseToString (r : Response) : String :=
  r.protocol_version ++ " " ++ r.status_code ++ " " ++ r.status_text ++
    "\r\nContent-Length:" ++ natDecimal r.bodyStr.utf8ByteSize ++ "\r\n\r\n" ++
    r.bodyStr

/-! ## Handlers and router (`src/handler.rs`, `src/router.rs`)

The filesystem under the configured root directory is a function from
root-relative file names to the contents `fs::read_to_string` would
return, `none` when the read fails (missing file, or a directory such
as the parent entry `..`). -/

/-- The static-file root directory's contents. -/
def FSModel : Type := String → Option String

/-- `Handler::load_file`: read `{public_path}/{file_name}`, converting
the `Result` to an `Option`. -/
def load_file (fs : FSModel) (file_name : String) : Option String :=
  fs file_name

/-- Which handler the router selected. -/
inductive HandlerKind where
  | Api
  | StaticFile
  | NotFound
deriving DecidableEq

/-- `NotFoundHandler::handle`: a 404 response carrying `404.html` when
it exists, paired with the list of file names it read. -/
def NotFoundHandler.handle (fs : FSModel) (_req : Request) : Response × List String :=
  (Response.new "404" none (load_file fs "404.html"), ["404.html"])

/-- `ApiHandler::handle`: the fixed JSON envelope with
`Content-Type: application/json`. -/
def ApiHandler.handle (_req : Request) : Response :=
  Response.new "200"
    (some [("Content-Type", "application/json")])
    (some "\x7b\"errno\":0,\"msg\":\"success\", \"data\": null\x7d")

/-- `StaticFileHandler::handle`, instrumented with the list of file
names passed to `load_file`.  The handler splits the path on `/` and
matches on `route[1]` only; `none` models the out-of-bounds panic when
the split has no index 1. -/
def StaticFileHandler.handle (fs : FSModel) (req : Request) :
    Option (Response × List String) :=
  let route := rustSplit '/' req.resource
  let headers := [("Content-Type", "text/html")]
  match route.get? 1 with
  | none => none
  | some seg =>
    if seg = "" ∨ seg = "index.html" then
      some (Response.new "200" (some headers) (load_file fs "index.html"), ["index.html"])
    else if seg = "sleep.html" then
      some (Response.new "200" (some headers) (load_file fs "sleep.html"), ["sleep.html"])
    else
      match load_file fs seg with
      | some contents =>
        let headers2 :=
          if rustEndsWith seg ".css" then hashInsert headers "Content-Type" "text/css"
          else if rustEndsWith seg ".js" then hashInsert headers "Content-Type" "text/javascript"
          else if rustEndsWith seg ".html" then hashInsert headers "Content-Type" "text/html"
          else hashInsert headers "Content-Type" "text/plain"
        some (Response.new "200" (some headers2) (some contents), [seg])
      | none =>
        let nf := NotFoundHandler.handle fs req
        some (nf.1, seg :: nf.2)

/-- `Router::route`: non-GET requests go to the Not-Found handler; a
GET request's path is split on `/` and `route[1]` is compared with
`"api"`.  Result: the selected handler, the response it produced and
the file names read; `none` models the `route[1]` index panic. -/
def Router.routeFull (fs : FSModel) (req : Request) :
    Option (HandlerKind × Response × List String) :=
  match req.method with
  | Method.Get =>
    let route := rustSplit '/' req.resource
    match route.get? 1 with
    | none => none
    | some seg =>
      if seg = "api" then some (.Api, ApiHandler.handle req, [])
      else
        match StaticFileHandler.handle fs req with
        | some rr => some (.StaticFile, rr.1, rr.2)
        | none => none
  | _ =>
    let nf := NotFoundHandler.handle fs req
    some (.NotFound, nf.1, nf.2)

/-! ## Connection job and thread pool (`src/server.rs`, `src/thread_pool.rs`) -/

/-- Outcome of one connection job: the serialized bytes written back,
or a panic that unwinds out of the job closure. -/
inductive JobOutcome where
  | completed (wire : String)
  | panicked
deriving DecidableEq

/-- `handle_http_request` from `src/server.rs`: read the buffer
(`.unwrap()` — a read error panics), parse it into a `Request`
(`process_req_line` may panic), route it (the `route[1]` access may
panic), and send the response (`.unwrap()` — a write error panics).
`readRes` is the decoded text when the socket read succeeds, `writeOk`
whether the socket write succeeds. -/
def handle_http_request (fs : FSModel) (readRes : Option String) (writeOk : Bool) :
    JobOutcome :=
  match readRes with
  | none => .panicked
  | some s =>
    match Request.fromString s with
    | none => .panicked
    | some req =>
      match Router.routeFull fs req with
      | none => .panicked
      | some rr =>
        if writeOk then .completed (responseToString rr.2.1) else .panicked

/-- `enum TaskMessage` from `src/thread_pool.rs`: a new job, or the
termination signal. -/
inductive TaskMessage where
  | newTask (job : JobOutcome)
  | exit
deriving DecidableEq

/-- How a worker thread ends up after receiving a finite sequence of
messages on the channel. -/
inductive WorkerFate where
  | exited
  | crashed
  | blocked
deriving DecidableEq

/-- The worker loop of `Worker::new`: a blocking `recv` in a loop; a
`NewTask` runs the job (a panicking job unwinds and kills the thread),
`Exit` breaks the loop; with no further message and the channel still
open the worker stays blocked in `recv`. -/
def workerRun : List TaskMessage → WorkerFate
  | [] => .blocked
  | .newTask o :: rest => if o = .panicked then .crashed else workerRun rest
  | .exit :: _ => .exited

/-- An observable step of `impl Drop for ThreadPool`. -/
inductive DropAction where
  | sendMessage (m : TaskMessage)
  | joinWorker (id : Nat)
deriving DecidableEq

/-- `impl Drop for ThreadPool`: for each worker, take and join its
thread.  No message of any kind is sent on the channel. -/
def ThreadPool.dropActions (workerIds : List Nat) : List DropAction :=
  workerIds.map (fun id => DropAction.joinWorker id)

/-- Is a drop action the sending of the termination signal? -/
def DropAction.isExitSignal : DropAction → Bool
  | .sendMessage .exit => true
  | _ => false

/-! ## Definitions written from the spec's words, for comparison -/

/-- Modelled from the spec: a header line is split on the *first* `:`,
both sides trimmed (`§4.3` step 3).  Compared against the code's
`process_header`. -/
def splitOnFirstColon (line : String) : String × String :=
  let pieces := rustSplit ':' line
  (rustTrim (pieces.headD ""),
    rustTrim (String.intercalate ":" (pieces.tail)))

/-- Modelled from the spec: the first non-empty segment of the path
split on `/` (`§4.4`).  Compared against the code's `route[1]`. -/
def firstNonEmptySeg (path : String) : Option String :=
  (rustSplit '/' path).find? (fun seg => seg ≠ "")

/-- The path contains a `..` segment. -/
def hasDotDotSeg (path : String) : Bool :=
  (rustSplit '/' path).contains ".."

/-! ## Concrete fixtures used to instantiate the theorems -/

/-- A root directory with no readable files. -/
def fsEmpty : FSModel := fun _ => none

/-- A root directory holding only `index.html`. -/
def fsHome : FSModel :=
  fun n => if n = "index.html" then some "<h2>home</h2>" else none

/-- A root directory holding only `x.html`, whose content is two
three-byte Chinese characters. -/
def fsCN : FSModel :=
  fun n => if n = "x.html" then some "中文" else none

/-- `GET /x.html HTTP/1.1` against `fsCN`. -/
def reqCN : Request := ⟨.Get, .HTTP1_1, "/x.html", [], ""⟩

/-- `GET /api HTTP/1.1`. -/
def apiReq : Request := ⟨.Get, .HTTP1_1, "/api", [], ""⟩

/-! ## Generic lemmas about the string utilities -/

/-- `splitChar` always produces at least one piece. -/
theorem splitChar_ne_nil (sep : Char) (l : List Char) : splitChar sep l ≠ [] := by
  cases l with
  | nil => simp [splitChar]
  | cons c cs =>
    simp only [splitChar]
    split <;> simp

/-- No piece produced by `splitChar` contains the separator. -/
theorem splitChar_no_sep (sep : Char) (l : List Char) :
    ∀ piece ∈ splitChar sep l, sep ∉ piece := by
  induction l with
  | nil =>
    intro piece hp
    simp [splitChar] at hp
    simp [hp]
  | cons c cs ih =>
    intro piece hp
    simp only [splitChar] at hp
    by_cases hc : c = sep
    · rw [if_pos hc] at hp
      rcases List.mem_cons.mp hp with h | h
      · simp [h]
      · exact ih piece h
    · rw [if_neg hc] at hp
      rcases List.mem_cons.mp hp with h | h
      · subst h
        intro hmem
        rcases List.mem_cons.mp hmem with h' | h'
        · exact hc h'.symm
        · obtain ⟨hd, tl, hr⟩ := List.exists_cons_of_ne_nil (splitChar_ne_nil sep cs)
          rw [hr] at h'
          simp only [List.headD_cons] at h'
          exact ih hd (by rw [hr]; exact List.mem_cons_self hd tl) h'
      · obtain ⟨hd, tl, hr⟩ := List.exists_cons_of_ne_nil (splitChar_ne_nil sep cs)
        rw [hr] at h
        simp only [List.tail_cons] at h
        exact ih piece (by rw [hr]; exact List.mem_cons_of_mem hd h)

/-- A separator-free list is a single piece. -/
theorem splitChar_eq_single (sep : Char) (xs : List Char) (h : sep ∉ xs) :
    splitChar sep xs = [xs] := by
  induction xs with
  | nil => simp [splitChar]
  | cons x xs ih =>
    have hx : ¬ x = sep := fun he => h (he ▸ List.mem_cons_self x xs)
    have hxs : sep ∉ xs := fun hm => h (List.mem_cons_of_mem x hm)
    simp [splitChar, hx, ih hxs]

/-- Splitting a list that starts with a separator-free chunk followed by
the separator peels off exactly that chunk. -/
theorem splitChar_append (sep : Char) (xs ys : List Char) (h : sep ∉ xs) :
    splitChar sep (xs ++ sep :: ys) = xs :: splitChar sep ys := by
  induction xs with
  | nil => simp [splitChar]
  | cons x xs ih =>
    have hx : ¬ x = sep := fun he => h (he ▸ List.mem_cons_self x xs)
    have hxs : sep ∉ xs := fun hm => h (List.mem_cons_of_mem x hm)
    simp [splitChar, hx, ih hxs]

/-- Every piece of `rustSplit` is free of the separator. -/
theorem rustSplit_no_sep (sep : Char) (s piece : String)
    (h : piece ∈ rustSplit sep s) : sep ∉ piece.data := by
  simp only [rustSplit, List.mem_map] at h
  obtain ⟨l, hl, he⟩ := h
  have := splitChar_no_sep sep s.data l hl
  cases piece
  cases he
  exact this

/-- `stripCR` removes exactly the final carriage return. -/
theorem stripCR_concat (l : List Char) : stripCR (l ++ ['\r']) = l := by
  simp [stripCR, List.getLast?_concat]

/-- `dropThrough` consumes a `c`-free chunk and the first `c`. -/
theorem dropThrough_append (c : Char) (xs r : List Char) (h : c ∉ xs) :
    dropThrough c (xs ++ c :: r) = r := by
  induction xs with
  | nil => simp [dropThrough]
  | cons x xs ih =>
    have hx : ¬ x = c := fun he => h (he ▸ List.mem_cons_self x xs)
    have hxs : c ∉ xs := fun hm => h (List.mem_cons_of_mem x hm)
    simp [dropThrough, hx, ih hxs]

/-- `takeUntil` keeps exactly the `c`-free chunk before the first `c`. -/
theorem takeUntil_append (c : Char) (ys r : List Char) (h : c ∉ ys) :
    takeUntil c (ys ++ c :: r) = ys := by
  induction ys with
  | nil => simp [takeUntil]
  | cons y ys ih =>
    have hy : ¬ y = c := fun he => h (he ▸ List.mem_cons_self y ys)
    have hys : c ∉ ys := fun hm => h (List.mem_cons_of_mem y hm)
    simp [takeUntil, hy, ih hys]

/-- `dropPat` removes an exact occurrence of the pattern at the front. -/
theorem dropPat_self (p r : List Char) : dropPat p (p ++ r) = some r := by
  induction p with
  | nil => simp [dropPat]
  | cons x xs ih => simp [dropPat, ih]

/-- `String.data` distributes over append. -/
theorem strDataAppend (s t : String) : (s ++ t).data = s.data ++ t.data := by
  cases s
  cases t
  rfl

/-- The digit characters are decimal digits. -/
theorem digitChar_isDigit (n : Nat) (h : n < 10) : (digitChar n).isDigit = true := by
  interval_cases n <;> decide

/-- `digitVal` inverts `digitChar` on single digits. -/
theorem digitVal_digitChar (n : Nat) (h : n < 10) : digitVal (digitChar n) = n := by
  interval_cases n <;> decide

/-- The fuel of `natDigitsRevAux` is irrelevant as long as it exceeds
the argument. -/
theorem natDigitsRevAux_fuel (n : Nat) : ∀ f₁ f₂, n < f₁ → n < f₂ →
    natDigitsRevAux f₁ n = natDigitsRevAux f₂ n := by
  induction n using Nat.strong_induction_on with
  | _ n ih =>
    intro f₁ f₂ h₁ h₂
    cases f₁ with
    | zero => omega
    | succ g₁ =>
      cases f₂ with
      | zero => omega
      | succ g₂ =>
        simp only [natDigitsRevAux]
        by_cases h : n < 10
        · simp [h]
        · have hd : n / 10 < n := Nat.div_lt_self (by omega) (by omega)
          simp only [if_neg h]
          congr 1
          exact ih (n / 10) hd g₁ g₂ (by omega) (by omega)

/-- Unfolding equation for `natDigitsRev`. -/
theorem natDigitsRev_eq (n : Nat) : natDigitsRev n =
    if n < 10 then [digitChar n]
    else digitChar (n % 10) :: natDigitsRev (n / 10) := by
  show natDigitsRevAux (n + 1) n = _
  simp only [natDigitsRevAux]
  by_cases h : n < 10
  · simp [h]
  · have hd : n / 10 < n := Nat.div_lt_self (by omega) (by omega)
    simp only [if_neg h]
    congr 1
    exact natDigitsRevAux_fuel (n / 10) n (n / 10 + 1) hd (by omega)

/-- Every character of the decimal rendering is a digit. -/
theorem digitsList_isDigit (n : Nat) : ∀ c ∈ digitsList n, c.isDigit = true := by
  induction n using Nat.strong_induction_on with
  | _ n ih =>
    intro c hc
    simp only [digitsList] at hc
    rw [List.mem_reverse] at hc
    rw [natDigitsRev_eq] at hc
    by_cases h : n < 10
    · rw [if_pos h] at hc
      simp at hc
      exact hc ▸ digitChar_isDigit n h
    · rw [if_neg h] at hc
      rcases List.mem_cons.mp hc with h' | h'
      · exact h' ▸ digitChar_isDigit (n % 10) (Nat.mod_lt n (by omega))
      · have hlt : n / 10 < n := Nat.div_lt_self (by omega) (by omega)
        have := ih (n / 10) hlt c
        simp only [digitsList, List.mem_reverse] at this
        exact this h'

/-- A single-character pattern occurs as a substring iff the character
is a member. -/
theorem containsSub_single_of_mem (c : Char) (l : List Char) (h : c ∈ l) :
    containsSub [c] l = true := by
  induction l with
  | nil => cases h
  | cons x xs ih =>
    rcases List.mem_cons.mp h with h' | h'
    · simp [containsSub, listStartsWith, h']
    · simp [containsSub, ih h']

/-- Rebuilding a string from its characters is the identity. -/
theorem strEta (s : String) : (⟨s.data⟩ : String) = s := rfl

/-- Consuming the decimal digits of `n` multiplies the accumulator by
the corresponding power of ten and adds `n`. -/
theorem parseDigitsAux_digits (n : Nat) : ∀ (acc : Nat) (rest : List Char),
    parseDigitsAux acc (digitsList n ++ rest) =
      parseDigitsAux (acc * 10 ^ (digitsList n).length + n) rest := by
  induction n using Nat.strong_induction_on with
  | _ n ih =>
    intro acc rest
    by_cases h : n < 10
    · have hd : digitsList n = [digitChar n] := by
        simp [digitsList, natDigitsRev_eq, h]
      rw [hd]
      simp [parseDigitsAux, digitChar_isDigit n h, digitVal_digitChar n h]
    · have hd : digitsList n = digitsList (n / 10) ++ [digitChar (n % 10)] := by
        simp only [digitsList]
        rw [natDigitsRev_eq, if_neg h]
        simp
      have hlt : n / 10 < n := Nat.div_lt_self (by omega) (by omega)
      rw [hd, List.append_assoc, ih (n / 10) hlt acc _]
      simp only [List.singleton_append]
      have hmlt : n % 10 < 10 := Nat.mod_lt n (by omega)
      simp only [parseDigitsAux, digitChar_isDigit (n % 10) hmlt,
        digitVal_digitChar (n % 10) hmlt, if_pos]
      have harith : (acc * 10 ^ (digitsList (n / 10)).length + n / 10) * 10 + n % 10 =
          acc * 10 ^ (digitsList (n / 10) ++ [digitChar (n % 10)]).length + n := by
        have h2 : n / 10 * 10 + n % 10 = n := Nat.div_add_mod' n 10
        rw [List.length_append, List.length_singleton, pow_succ]
        calc (acc * 10 ^ (digitsList (n / 10)).length + n / 10) * 10 + n % 10
            = acc * 10 ^ (digitsList (n / 10)).length * 10 +
                (n / 10 * 10 + n % 10) := by ring
          _ = acc * (10 ^ (digitsList (n / 10)).length * 10) + n := by rw [h2]; ring
      rw [harith]

/-- Parsing the decimal rendering of `n` followed by a non-digit
returns exactly `n`. -/
theorem parseDigits_decimal (n : Nat) (c : Char) (r : List Char)
    (hc : c.isDigit = false) :
    parseDigitsAux 0 (digitsList n ++ c :: r) = (n, c :: r) := by
  rw [parseDigitsAux_digits]
  simp [parseDigitsAux, hc]

/-- Wire-format lemma: on any string laid out as
`{status line}\r\nContent-Length:{digits of n}\r\n{tail}` with a
newline-free status line, the `Content-Length` extractor recovers `n`. -/
theorem contentLengthVal_wire (w : String) (sl : List Char) (n : Nat)
    (tail : List Char)
    (hw : w.data = sl ++ '\r' :: '\n' :: (("Content-Length:").data ++
      (digitsList n ++ '\r' :: '\n' :: tail)))
    (hsl : '\n' ∉ sl) :
    contentLengthVal w = some n := by
  have h1 : dropThrough '\n' w.data =
      ("Content-Length:").data ++ (digitsList n ++ '\r' :: '\n' :: tail) := by
    rw [hw]
    rw [show sl ++ '\r' :: '\n' :: (("Content-Length:").data ++
        (digitsList n ++ '\r' :: '\n' :: tail)) =
        (sl ++ ['\r']) ++ '\n' :: (("Content-Length:").data ++
        (digitsList n ++ '\r' :: '\n' :: tail)) by simp]
    refine dropThrough_append '\n' _ _ ?_
    intro hm
    rcases List.mem_append.mp hm with h' | h'
    · exact hsl h'
    · simp at h'
  have h2 : takeUntil '\n' (dropThrough '\n' w.data) =
      ("Content-Length:").data ++ (digitsList n ++ ['\r']) := by
    rw [h1]
    rw [show ("Content-Length:").data ++ (digitsList n ++ '\r' :: '\n' :: tail) =
        (("Content-Length:").data ++ (digitsList n ++ ['\r'])) ++ '\n' :: tail by
      simp]
    refine takeUntil_append '\n' _ _ ?_
    intro hm
    rcases List.mem_append.mp hm with h' | h'
    · revert h'
      decide
    · rcases List.mem_append.mp h' with h'' | h''
      · have := digitsList_isDigit n '\n' h''
        simp at this
      · simp at h''
  simp only [contentLengthVal, h2, dropPat_self]
  rw [show digitsList n ++ ['\r'] = digitsList n ++ '\r' :: [] from rfl]
  rw [parseDigits_decimal n '\r' [] (by decide)]

/-- The characters of a serialized response, separated into status
line, `Content-Length` header, blank line and body. -/
theorem responseToString_data (r : Response) :
    (responseToString r).data =
      r.protocol_version.data ++ ' ' :: (r.status_code.data ++ ' ' ::
        (r.status_text.data ++ '\r' :: '\n' :: (("Content-Length:").data ++
          (digitsList r.bodyStr.utf8ByteSize ++ '\r' :: '\n' :: '\r' :: '\n' ::
            r.bodyStr.data)))) := by
  have e1 : ∀ x : List Char, (" ").data ++ x = ' ' :: x := fun x => rfl
  have e2 : ∀ x : List Char, ("\r\nContent-Length:").data ++ x =
      '\r' :: '\n' :: (("Content-Length:").data ++ x) := fun x => rfl
  have e3 : ∀ x : List Char, ("\r\n\r\n").data ++ x =
      '\r' :: '\n' :: '\r' :: '\n' :: x := fun x => rfl
  have e4 : (natDecimal r.bodyStr.utf8ByteSize).data =
      digitsList r.bodyStr.utf8ByteSize := rfl
  simp only [responseToString, strDataAppend, List.append_assoc, e1, e2, e3, e4]
  simp [List.append_assoc]

/-- Every response the static-file handler returns is a
`200 OK` or a `404 Not Found` over `HTTP/1.1`. -/
theorem staticHandle_shape (fs : FSModel) (req : Request)
    (rr : Response × List String) (h : StaticFileHandler.handle fs req = some rr) :
    rr.1.protocol_version = "HTTP/1.1" ∧
      ((rr.1.status_code = "200" ∧ rr.1.status_text = "OK") ∨
       (rr.1.status_code = "404" ∧ rr.1.status_text = "Not Found")) := by
  simp only [StaticFileHandler.handle] at h
  split at h
  · exact absurd h (by simp)
  · split_ifs at h <;>
      first
        | (injection h with h'
           subst h'
           simp [Response.new, Response.mkDefault, NotFoundHandler.handle])
        | (split at h <;>
            (injection h with h'
             subst h'
             simp [Response.new, Response.mkDefault, NotFoundHandler.handle]))

/-- Every response the router produces is a `200 OK` or a
`404 Not Found` over `HTTP/1.1`. -/
theorem routeFull_shape (fs : FSModel) (req : Request) (k : HandlerKind)
    (resp : Response) (reads : List String)
    (h : Router.routeFull fs req = some (k, resp, reads)) :
    resp.protocol_version = "HTTP/1.1" ∧
      ((resp.status_code = "200" ∧ resp.status_text = "OK") ∨
       (resp.status_code = "404" ∧ resp.status_text = "Not Found")) := by
  simp only [Router.routeFull] at h
  split at h
  · split at h
    · exact absurd h (by simp)
    · split_ifs at h with h1
      · injection h with h'
        have h2 := congrArg (fun t : HandlerKind × Response × List String => t.2.1) h'
        simp only at h2
        subst h2
        simp [ApiHandler.handle, Response.new, Response.mkDefault]
      · split at h
        · injection h with h'
          have h2 := congrArg (fun t : HandlerKind × Response × List String => t.2.1) h'
          simp only at h2
          subst h2
          exact staticHandle_shape fs req _ (by assumption)
        · exact absurd h (by simp)
  · injection h with h'
    have h2 := congrArg (fun t : HandlerKind × Response × List String => t.2.1) h'
    simp only at h2
    subst h2
    simp [NotFoundHandler.handle, Response.new, Response.mkDefault]

/-- C7: for every Response the router produces, the `Content-Length`
value on the wire equals the UTF-8 byte length of the body.  (The
serializer uses Rust `str::len`, which counts bytes, not characters.) -/
theorem c7_content_length_is_byte_length (fs : FSModel) (req : Request)
    (k : HandlerKind) (resp : Response) (reads : List String)
    (h : Router.routeFull fs req = some (k, resp, reads)) :
    contentLengthVal (responseToString resp) = some resp.bodyStr.utf8ByteSize := by
  obtain ⟨hpv, hsh⟩ := routeFull_shape fs req k resp reads h
  refine contentLengthVal_wire _
    (resp.protocol_version.data ++ ' ' :: (resp.status_code.data ++ ' ' ::
      resp.status_text.data))
    _ ('\r' :: '\n' :: resp.bodyStr.data) ?_ ?_
  · rw [responseToString_data]
    simp [List.append_assoc]
  · rcases hsh with ⟨hc, ht⟩ | ⟨hc, ht⟩ <;> rw [hpv, hc, ht] <;> decide

/-- Witness for C7: a concrete served file holding `中文` (2 characters,
6 UTF-8 bytes) is announced with `Content-Length` 6, the byte count. -/
theorem c7_content_length_is_byte_length_witness :
    contentLengthVal (responseToString
        ⟨"HTTP/1.1", "200", "OK", some [("Content-Type", "text/html")],
          some "中文"⟩) = some 6 ∧ ("中文" : String).length = 2 := by
  constructor
  · have h := c7_content_length_is_byte_length fsCN reqCN .StaticFile
      ⟨"HTTP/1.1", "200", "OK", some [("Content-Type", "text/html")], some "中文"⟩
      ["x.html"] (by decide)
    exact h.trans (by decide)
  · decide

/-- C2: the empty buffer parses to a Request with every field
`Uninitialized`/empty, but a request line holding a protocol token and
fewer than three whitespace-separated tokens makes `process_req_line`
panic (`None.unwrap()`), modelled by `none`, instead of degrading to
`Uninitialized` fields. -/
theorem c2_empty_ok_but_short_req_line_panics :
    Request.fromString "" =
      some ⟨.Uninitialized, .Uninitialized, "", [], ""⟩ ∧
    Request.fromString "HTTP/1.1\r\n\r\n" = none ∧
    process_req_line "HTTP/1.1" = none := by
  refine ⟨rfl, rfl, rfl⟩

/-- C3: `impl Drop for ThreadPool` joins every worker without ever
sending a message: among its actions for a five-worker pool there are
five joins and zero `Exit` signals, while a worker terminates its
receive loop only on an `Exit` signal (with no message it stays
blocked in `recv`). -/
theorem c3_drop_joins_without_signaling :
    (ThreadPool.dropActions [0, 1, 2, 3, 4]).countP DropAction.isExitSignal = 0 ∧
    ThreadPool.dropActions [0, 1, 2, 3, 4] =
      [.joinWorker 0, .joinWorker 1, .joinWorker 2, .joinWorker 3, .joinWorker 4] ∧
    workerRun [] = .blocked ∧
    workerRun [.exit] = .exited := by
  refine ⟨rfl, rfl, rfl, rfl⟩

/-- C4: a failed connection read (and likewise a failed write) makes
`handle_http_request` panic through its `.unwrap()` calls, and a
panicking job crashes the worker thread executing it, contrary to the
claim that such failures only abandon the connection. -/
theorem c4_io_error_panics_worker :
    handle_http_request fsEmpty none true = .panicked ∧
    handle_http_request fsEmpty (some "POST / HTTP/1.1\r\n\r\n") false = .panicked ∧
    workerRun [.newTask (handle_http_request fsEmpty none true)] = .crashed ∧
    handle_http_request fsEmpty (some "POST / HTTP/1.1\r\n\r\n") true =
      .completed (responseToString (Response.new "404" none none)) := by
  refine ⟨rfl, rfl, rfl, rfl⟩

/-- C5: the serializer `From<Response> for String` writes only the
status line, `Content-Length` and the body: the headers stored in the
Response (here `Content-Type: application/json` on the API response)
never appear in the wire string. -/
theorem c5_headers_not_serialized :
    (ApiHandler.handle apiReq).headers =
      some [("Content-Type", "application/json")] ∧
    containsSub ("Content-Type").data
      (responseToString (ApiHandler.handle apiReq)).data = false := by
  refine ⟨rfl, by decide⟩

/-- C8 counterexample: the parser maps `"HEAD"` and `"HTTP/1.0"` to the
`Uninitialized` (UNKNOWN) variants — the enums have no HEAD (nor
CONNECT/OPTIONS/TRACE) and no HTTP/1.0 variants to map to. -/
theorem c8_head_and_http10_are_unknown :
    Method.fromStr "HEAD" = Method.Uninitialized ∧
    Method.fromStr "CONNECT" = Method.Uninitialized ∧
    Method.fromStr "TRACE" = Method.Uninitialized ∧
    ProtocolVersion.fromStr "HTTP/1.0" = ProtocolVersion.Uninitialized := by
  refine ⟨rfl, rfl, rfl, rfl⟩

/-- C8 (amended): the parser maps exactly
{GET, POST, PUT, PATCH, DELETE} to their Method variants and
{HTTP/1.1, HTTP/2} to their ProtocolVersion variants; every other
token maps to `Uninitialized` without failing. -/
theorem c8_token_mapping :
    (Method.fromStr "GET" = .Get ∧ Method.fromStr "POST" = .Post ∧
     Method.fromStr "PUT" = .Put ∧ Method.fromStr "PATCH" = .Patch ∧
     Method.fromStr "DELETE" = .Delete) ∧
    (ProtocolVersion.fromStr "HTTP/1.1" = .HTTP1_1 ∧
     ProtocolVersion.fromStr "HTTP/2" = .HTTP2) ∧
    (∀ s : String, s ∉ (["GET", "POST", "PUT", "PATCH", "DELETE"] : List String) →
      Method.fromStr s = .Uninitialized) ∧
    (∀ s : String, s ∉ (["HTTP/1.1", "HTTP/2"] : List String) →
      ProtocolVersion.fromStr s = .Uninitialized) := by
  refine ⟨⟨rfl, rfl, rfl, rfl, rfl⟩, ⟨rfl, rfl⟩, ?_, ?_⟩
  · intro s hs
    simp only [List.mem_cons, List.mem_singleton, not_or] at hs
    obtain ⟨h1, h2, h3, h4, h5, -⟩ := hs
    simp [Method.fromStr, h1, h2, h3, h4, h5]
  · intro s hs
    simp only [List.mem_cons, List.mem_singleton, not_or] at hs
    obtain ⟨h1, h2, -⟩ := hs
    simp [ProtocolVersion.fromStr, h1, h2]

/-- Witness for C8 (amended): tokens outside the recognized sets map to
`Uninitialized`. -/
theorem c8_token_mapping_witness :
    Method.fromStr "OPTIONS" = Method.Uninitialized ∧
    ProtocolVersion.fromStr "HTTP/9" = ProtocolVersion.Uninitialized :=
  ⟨c8_token_mapping.2.2.1 "OPTIONS" (by decide),
   c8_token_mapping.2.2.2 "HTTP/9" (by decide)⟩

/-- C10: for a GET request whose path contains no `/` at all, the split
on `/` yields a single piece, the access to segment index 1 is out of
bounds (a panic, modelled by `none`), and no response is produced. -/
theorem c10_no_slash_panics (fs : FSModel) (req : Request)
    (hm : req.method = Method.Get) (hp : ('/' : Char) ∉ req.resource.data) :
    Router.routeFull fs req = none := by
  simp [Router.routeFull, hm, rustSplit, splitChar_eq_single '/' req.resource.data hp]

/-- Witness for C10: `GET foo HTTP/1.1` (path `foo`, no slash) produces
no response. -/
theorem c10_no_slash_panics_witness :
    Router.routeFull fsEmpty ⟨.Get, .HTTP1_1, "foo", [], ""⟩ = none :=
  c10_no_slash_panics fsEmpty ⟨.Get, .HTTP1_1, "foo", [], ""⟩ rfl (by decide)

/-- Whenever segment index 1 exists, the static-file handler returns a
response rather than panicking. -/
theorem staticHandle_isSome (fs : FSModel) (req : Request) (seg : String)
    (hseg : (rustSplit '/' req.resource).get? 1 = some seg) :
    ∃ rr, StaticFileHandler.handle fs req = some rr := by
  simp only [StaticFileHandler.handle, hseg]
  split_ifs <;>
    first
      | exact ⟨_, rfl⟩
      | (rcases h : load_file fs seg with _ | c <;> simp [h])

/-- C6 counterexample: for `GET //api` the first non-empty segment is
`api`, yet the router selects the static-file handler, because the code
compares `route[1]` (here the empty string) with `"api"`, not the first
non-empty segment. -/
theorem c6_first_nonempty_segment_counterexample :
    firstNonEmptySeg "//api" = some "api" ∧
    (Router.routeFull fsEmpty ⟨.Get, .HTTP1_1, "//api", [], ""⟩).map
        (fun t => t.1) = some HandlerKind.StaticFile ∧
    HandlerKind.StaticFile ≠ HandlerKind.Api := by
  refine ⟨by decide, by decide, by decide⟩

/-- C6 (amended): non-GET requests select the Not-Found handler; a GET
request whose path split on `/` has an element at index 1 selects the
API handler iff that element equals `"api"`, and the static-file
handler otherwise. -/
theorem c6_route_selection (fs : FSModel) (req : Request) :
    (req.method ≠ Method.Get →
      (Router.routeFull fs req).map (fun t => t.1) = some HandlerKind.NotFound) ∧
    (∀ seg : String, req.method = Method.Get →
      (rustSplit '/' req.resource).get? 1 = some seg →
      (Router.routeFull fs req).map (fun t => t.1) =
        some (if seg = "api" then HandlerKind.Api else HandlerKind.StaticFile)) := by
  constructor
  · intro hm
    cases hmeq : req.method
    case Get => exact absurd hmeq hm
    all_goals simp [Router.routeFull, hmeq]
  · intro seg hm hseg
    simp only [Router.routeFull, hm, hseg]
    by_cases ha : seg = "api"
    · simp [ha]
    · obtain ⟨rr, hrr⟩ := staticHandle_isSome fs req seg hseg
      simp [ha, hrr]

/-- Witness for C6 (amended): `POST /` selects Not-Found and
`GET /api` selects the API handler. -/
theorem c6_route_selection_witness :
    (Router.routeFull fsEmpty ⟨.Post, .HTTP1_1, "/", [], ""⟩).map
        (fun t => t.1) = some HandlerKind.NotFound ∧
    (Router.routeFull fsEmpty apiReq).map (fun t => t.1) =
      some HandlerKind.Api := by
  constructor
  · exact (c6_route_selection fsEmpty ⟨.Post, .HTTP1_1, "/", [], ""⟩).1 (by decide)
  · have h := (c6_route_selection fsEmpty apiReq).2 "api" rfl (by decide)
    simpa using h

/-- The static-file handler only ever reads `index.html`, `sleep.html`,
the path's segment at index 1, or additionally `404.html` when that
segment misses. -/
theorem staticHandle_reads (fs : FSModel) (req : Request)
    (rr : Response × List String) (seg : String)
    (hseg : (rustSplit '/' req.resource).get? 1 = some seg)
    (hsf : StaticFileHandler.handle fs req = some rr) :
    rr.2 = ["index.html"] ∨ rr.2 = ["sleep.html"] ∨
      rr.2 = [seg] ∨ rr.2 = [seg, "404.html"] := by
  simp only [StaticFileHandler.handle, hseg] at hsf
  rcases hload : load_file fs seg with _ | c <;>
    rw [hload] at hsf <;>
    split_ifs at hsf <;>
    (injection hsf with h'
     subst h'
     simp [NotFoundHandler.handle])

/-- C1 (amended): on a GET request whose path contains a `..` segment,
every file name the handlers pass to `load_file` is a single segment
containing no `/`, and no successful read is of the parent-directory
entry `..` (given that `..` is a directory, not a readable file) — so
no file outside the root directory is ever read.  (The response is not
always a 404: see the counterexample.) -/
theorem c1_reads_stay_in_root (fs : FSModel) (req : Request) (k : HandlerKind)
    (resp : Response) (reads : List String)
    (hfs : fs ".." = none) (hm : req.method = Method.Get)
    (_hdd : hasDotDotSeg req.resource = true)
    (hr : Router.routeFull fs req = some (k, resp, reads)) :
    ∀ name ∈ reads, ('/' : Char) ∉ name.data ∧ ((fs name).isSome → name ≠ "..") := by
  have hgen : ∀ name : String, (fs name).isSome → name ≠ ".." := by
    intro name hsome heq
    rw [heq, hfs] at hsome
    simp at hsome
  simp only [Router.routeFull, hm] at hr
  split at hr
  · exact absurd hr (by simp)
  · rename_i seg hseg
    have hsegmem : seg ∈ rustSplit '/' req.resource := List.get?_mem hseg
    have hsegns : ('/' : Char) ∉ seg.data :=
      rustSplit_no_sep '/' req.resource seg hsegmem
    split_ifs at hr with ha
    · injection hr with h'
      have hreads : reads = [] := (congrArg (fun t => t.2.2) h').symm
      subst hreads
      intro name hname
      cases hname
    · split at hr
      · rename_i rr hsf
        injection hr with h'
        have hreads : reads = rr.2 := (congrArg (fun t => t.2.2) h').symm
        subst hreads
        intro name hname
        refine ⟨?_, hgen name⟩
        rcases staticHandle_reads fs req rr seg hseg hsf with h4 | h4 | h4 | h4 <;>
          rw [h4] at hname <;> simp at hname
        · subst hname
          decide
        · subst hname
          decide
        · subst hname
          exact hsegns
        · rcases hname with hname | hname
          · subst hname
            exact hsegns
          · subst hname
            decide
      · exact absurd hr (by simp)

/-- C1 counterexample: `GET /index.html/..` has a `..` segment, yet the
server answers `200` (serving `index.html`, because only segment
index 1 of the split is consulted) instead of a 404 or a rejection. -/
theorem c1_dotdot_not_always_404 :
    hasDotDotSeg "/index.html/.." = true ∧
    (Router.routeFull fsHome ⟨.Get, .HTTP1_1, "/index.html/..", [], ""⟩).map
        (fun t => t.2.1.status_code) = some "200" := by
  refine ⟨by decide, by decide⟩

/-- Witness for C1 (amended): for `GET /..` against a root holding only
`index.html`, the name `..` passed to `load_file` has no `/`, and its
read fails, so the only possibly-out-of-root path is never a
successful file read. -/
theorem c1_reads_stay_in_root_witness :
    ('/' : Char) ∉ ("..").data ∧
      ((fsHome "..").isSome → (".." : String) ≠ "..") :=
  c1_reads_stay_in_root fsHome ⟨.Get, .HTTP1_1, "/..", [], ""⟩ .StaticFile
    (Response.new "404" none none) ["..", "404.html"] rfl rfl (by decide) (by decide)
    ".." (by decide)

/-- The characters of a `key:value` line. -/
theorem headerLine_data (k v : String) :
    (k ++ ":" ++ v).data = k.data ++ ':' :: v.data := by
  simp only [strDataAppend, List.append_assoc]
  rfl

/-- `process_header` on a line with exactly one colon yields the
trimmed key and the trimmed value. -/
theorem process_header_split (k v : String)
    (hk : (':' : Char) ∉ k.data) (hv : (':' : Char) ∉ v.data) :
    process_header (k ++ ":" ++ v) = (rustTrim k, rustTrim v) := by
  simp only [process_header, rustSplit, headerLine_data,
    splitChar_append ':' k.data v.data hk, splitChar_eq_single ':' v.data hv,
    List.map_cons, List.map_nil, List.headD_cons, List.get?, strEta]
  rfl

/-- `rustLines` on a wire request made of a request line, two header
lines and a blank line, all `\r\n`-terminated. -/
theorem rustLines_req (h1 h2 : String)
    (hn1 : ('\n' : Char) ∉ h1.data) (hn2 : ('\n' : Char) ∉ h2.data) :
    rustLines ("GET /x HTTP/1.1\r\n" ++ h1 ++ "\r\n" ++ h2 ++ "\r\n\r\n") =
      ["GET /x HTTP/1.1", h1, h2, ""] := by
  have hd : ("GET /x HTTP/1.1\r\n" ++ h1 ++ "\r\n" ++ h2 ++ "\r\n\r\n").data =
      ("GET /x HTTP/1.1\r").data ++ '\n' ::
        (h1.data ++ '\r' :: '\n' :: (h2.data ++ '\r' :: '\n' :: '\r' :: '\n' :: [])) := by
    simp only [strDataAppend, List.append_assoc]
    rfl
  have hs1 : ('\n' : Char) ∉ ("GET /x HTTP/1.1\r").data := by decide
  have hs2 : ('\n' : Char) ∉ h1.data ++ ['\r'] := by
    intro hm
    rcases List.mem_append.mp hm with h | h
    · exact hn1 h
    · simp at h
  have hs3 : ('\n' : Char) ∉ h2.data ++ ['\r'] := by
    intro hm
    rcases List.mem_append.mp hm with h | h
    · exact hn2 h
    · simp at h
  have hsplit : splitChar '\n'
      (("GET /x HTTP/1.1\r\n" ++ h1 ++ "\r\n" ++ h2 ++ "\r\n\r\n").data) =
      [("GET /x HTTP/1.1\r").data, h1.data ++ ['\r'], h2.data ++ ['\r'], ['\r'], []] := by
    rw [hd, splitChar_append '\n' _ _ hs1]
    rw [show h1.data ++ '\r' :: '\n' ::
        (h2.data ++ '\r' :: '\n' :: '\r' :: '\n' :: []) =
      (h1.data ++ ['\r']) ++ '\n' ::
        (h2.data ++ '\r' :: '\n' :: '\r' :: '\n' :: []) by simp]
    rw [splitChar_append '\n' _ _ hs2]
    rw [show h2.data ++ '\r' :: '\n' :: '\r' :: '\n' :: [] =
      (h2.data ++ ['\r']) ++ '\n' :: ('\r' :: '\n' :: []) by simp]
    rw [splitChar_append '\n' _ _ hs3]
    rw [show ('\r' :: '\n' :: [] : List Char) = ['\r'] ++ '\n' :: [] from rfl]
    rw [splitChar_append '\n' _ _ (by decide)]
    rfl
  simp only [rustLines, hsplit]
  simp only [List.dropLast, List.getLast?, List.map_cons, List.map_nil]
  rw [show stripCR (("GET /x HTTP/1.1\r").data) = ("GET /x HTTP/1.1").data by decide]
  rw [stripCR_concat h1.data, stripCR_concat h2.data,
    show stripCR ['\r'] = [] by decide]
  simp [strEta]

/-- C9 (amended): a header line is split on `:`, the piece before the
first colon and the piece between the first and second colon are
trimmed and inserted, and a later duplicate key overwrites the earlier
value: parsing a request with two `{k}:{v}` header lines sharing the
key keeps only the second value. -/
theorem c9_header_split_trim_insert (k v₁ v₂ : String)
    (hk1 : (':' : Char) ∉ k.data) (hk2 : ('\n' : Char) ∉ k.data)
    (hv11 : (':' : Char) ∉ v₁.data) (hv12 : ('\n' : Char) ∉ v₁.data)
    (hv21 : (':' : Char) ∉ v₂.data) (hv22 : ('\n' : Char) ∉ v₂.data)
    (hh1 : containsSub ("HTTP").data (k ++ ":" ++ v₁).data = false)
    (hh2 : containsSub ("HTTP").data (k ++ ":" ++ v₂).data = false) :
    Request.fromString ("GET /x HTTP/1.1\r\n" ++ (k ++ ":" ++ v₁) ++ "\r\n" ++
        (k ++ ":" ++ v₂) ++ "\r\n\r\n") =
      some ⟨.Get, .HTTP1_1, "/x", [(rustTrim k, rustTrim v₂)], ""⟩ := by
  have hn1 : ('\n' : Char) ∉ (k ++ ":" ++ v₁).data := by
    rw [headerLine_data]
    intro hm
    rcases List.mem_append.mp hm with h | h
    · exact hk2 h
    · rcases List.mem_cons.mp h with h | h
      · exact absurd h (by decide)
      · exact hv12 h
  have hn2 : ('\n' : Char) ∉ (k ++ ":" ++ v₂).data := by
    rw [headerLine_data]
    intro hm
    rcases List.mem_append.mp hm with h | h
    · exact hk2 h
    · rcases List.mem_cons.mp h with h | h
      · exact absurd h (by decide)
      · exact hv22 h
  have hcol1 : containsSub (":").data (k ++ ":" ++ v₁).data = true := by
    rw [headerLine_data, show (":").data = [':'] from rfl]
    exact containsSub_single_of_mem ':' _ (by simp)
  have hcol2 : containsSub (":").data (k ++ ":" ++ v₂).data = true := by
    rw [headerLine_data, show (":").data = [':'] from rfl]
    exact containsSub_single_of_mem ':' _ (by simp)
  have hph1 := process_header_split k v₁ hk1 hv11
  have hph2 := process_header_split k v₂ hk1 hv21
  have hreq : process_req_line "GET /x HTTP/1.1" =
      some (Method.Get, "/x", ProtocolVersion.HTTP1_1) := by decide
  have hc1 : containsSub ("HTTP").data ("GET /x HTTP/1.1").data = true := by decide
  have hc4 : containsSub ("HTTP").data ("").data = false := by decide
  have hc5 : containsSub (":").data ("").data = false := by decide
  have hins : hashInsert (hashInsert [] (rustTrim k) (rustTrim v₁)) (rustTrim k)
      (rustTrim v₂) = [(rustTrim k, rustTrim v₂)] := by
    simp [hashInsert]
  rw [Request.fromString, rustLines_req _ _ hn1 hn2]
  simp only [requestLinesLoop, hc1, hreq, hh1, hcol1, hph1, hh2, hcol2, hph2,
    hc4, hc5, reduceIte, hins, Option.map_some']
  simp

/-- C9 counterexample: for a header whose value itself contains a
colon, the code keeps only the text between the first and second
colon (`Host: localhost:3000` parses to value `localhost`), not the
whole remainder after the first colon as the claim states. -/
theorem c9_value_not_split_on_first_colon :
    process_header "Host: localhost:3000" = ("Host", "localhost") ∧
    splitOnFirstColon "Host: localhost:3000" = ("Host", "localhost:3000") ∧
    ("localhost" : String) ≠ "localhost:3000" := by
  refine ⟨by decide, by decide, by decide⟩

/-- Witness for C9 (amended): two `Accept` headers, the later value
wins. -/
theorem c9_header_split_trim_insert_witness :
    Request.fromString "GET /x HTTP/1.1\r\nAccept:a\r\nAccept:b\r\n\r\n" =
      some ⟨.Get, .HTTP1_1, "/x", [("Accept", "b")], ""⟩ := by
  have h := c9_header_split_trim_insert "Accept" "a" "b" (by decide) (by decide)
    (by decide) (by decide) (by decide) (by decide) (by decide) (by decide)
  have h2 : ("GET /x HTTP/1.1\r\n" ++ ("Accept" ++ ":" ++ "a") ++ "\r\n" ++
      ("Accept" ++ ":" ++ "b") ++ "\r\n\r\n") =
      "GET /x HTTP/1.1\r\nAccept:a\r\nAccept:b\r\n\r\n" := by decide
  rw [← h2]
  exact h.trans (by decide)
